import Mathlib

/-! Shallow embedding of the money-muling detection engine
(`backend/graph_engine.py`): transaction rows, the directed graph built by
`nx.from_pandas_edgelist` with `create_using=nx.DiGraph()` (one edge per
ordered `(sender, receiver)` pair, later rows overwriting the stored edge
attributes), the velocity scorer, the three pattern detectors, the flag
accumulator, and the final report assembly.  Account identifiers and pattern
tags are strings, timestamps are integers (seconds since epoch), scores are
rationals. -/

structure Row where
  transaction_id : String
  sender_id : String
  receiver_id : String
  amount : Int
  timestamp : Int
deriving DecidableEq, Repr

structure TxEdge where
  src : String
  dst : String
  transaction_id : String
  amount : Int
  timestamp : Int
deriving DecidableEq, Repr

/-- Node list (in insertion order) and edge list of the `nx.DiGraph`. -/
structure TxGraph where
  nodes : List String
  edges : List TxEdge
deriving DecidableEq, Repr

def addNode (ns : List String) (v : String) : List String :=
  if v ∈ ns then ns else ns ++ [v]

/-- `DiGraph.add_edge(sender, receiver, **attrs)`: inserts both endpoints in
order, then either overwrites the attributes of the existing
`(sender, receiver)` edge or appends a new edge. -/
def add_edge (g : TxGraph) (r : Row) : TxGraph :=
  let ns := addNode (addNode g.nodes r.sender_id) r.receiver_id
  let e : TxEdge := ⟨r.sender_id, r.receiver_id, r.transaction_id, r.amount, r.timestamp⟩
  if g.edges.any fun e0 => decide (e0.src = r.sender_id) && decide (e0.dst = r.receiver_id) then
    ⟨ns, g.edges.map fun e0 => if e0.src = r.sender_id ∧ e0.dst = r.receiver_id then e else e0⟩
  else
    ⟨ns, g.edges ++ [e]⟩

def from_pandas_edgelist (rows : List Row) : TxGraph :=
  rows.foldl add_edge ⟨[], []⟩

def outEdges (g : TxGraph) (n : String) : List TxEdge :=
  g.edges.filter fun e => decide (e.src = n)

def inEdges (g : TxGraph) (n : String) : List TxEdge :=
  g.edges.filter fun e => decide (e.dst = n)

def out_degree (g : TxGraph) (n : String) : Nat := (outEdges g n).length

def in_degree (g : TxGraph) (n : String) : Nat := (inEdges g n).length

def successors (g : TxGraph) (n : String) : List String := (outEdges g n).map (·.dst)

def predecessors (g : TxGraph) (n : String) : List String := (inEdges g n).map (·.src)

def hasEdge (g : TxGraph) (u v : String) : Bool :=
  g.edges.any fun e => decide (e.src = u) && decide (e.dst = v)

/-- Timestamps gathered by `_calculate_velocity_score`: out-edges first, then
in-edges; a self-loop edge contributes its timestamp twice. -/
def incidentTimestamps (g : TxGraph) (a : String) : List Int :=
  (outEdges g a).map (·.timestamp) ++ (inEdges g a).map (·.timestamp)

/-- The gathered incident timestamps, sorted ascending. -/
def sortedIncidentTimestamps (g : TxGraph) (a : String) : List Int :=
  (incidentTimestamps g a).insertionSort (· ≤ ·)

def _calculate_velocity_score (g : TxGraph) (account_id : String) : Int :=
  if account_id ∈ g.nodes then
    if (incidentTimestamps g account_id).length < 2 then 0
    else
      if (List.range ((sortedIncidentTimestamps g account_id).length - 1)).any fun i =>
          decide ((sortedIncidentTimestamps g account_id).getD (i + 1) 0 -
            (sortedIncidentTimestamps g account_id).getD i 0 < 3600) then 10
      else 0
  else 0

def WINDOW_SECONDS : Int := 259200

/-- The sliding-window test over an (already sorted) timestamp list:
`any i, t[i+9] - t[i] <= 259200`. -/
def windowPassed (ts : List Int) : Bool :=
  (List.range (ts.length - 9)).any fun i =>
    decide (ts.getD (i + 9) 0 - ts.getD i 0 ≤ WINDOW_SECONDS)

def sortedOutTimestamps (g : TxGraph) (n : String) : List Int :=
  ((outEdges g n).map (·.timestamp)).insertionSort (· ≤ ·)

def sortedInTimestamps (g : TxGraph) (n : String) : List Int :=
  ((inEdges g n).map (·.timestamp)).insertionSort (· ≤ ·)

/-- Per-node fan-out test of `detect_temporal_smurfing`. -/
def fanOutCondition (g : TxGraph) (n : String) : Bool :=
  if (outEdges g n).length < 10 then false
  else
    windowPassed (sortedOutTimestamps g n) &&
      ((outEdges g n).map (·.dst)).all fun r => decide (0 < out_degree g r)

/-- Per-node fan-in test of `detect_temporal_smurfing`. -/
def fanInCondition (g : TxGraph) (n : String) : Bool :=
  if (inEdges g n).length < 10 then false
  else windowPassed (sortedInTimestamps g n) && decide (out_degree g n = 1)

/-- Per-node test of `detect_shell_pass_throughs`. -/
def shellCondition (g : TxGraph) (n : String) : Bool :=
  (decide (in_degree g n + out_degree g n = 2) || decide (in_degree g n + out_degree g n = 3)) &&
  (decide (1 ≤ in_degree g n) && decide (1 ≤ out_degree g n)) &&
  ((predecessors g n).any fun p => (successors g n).any fun s =>
    decide (0 < in_degree g p) || decide (0 < out_degree g s))

/-- Bounded simple-cycle enumeration (the model of
`nx.simple_cycles(G, length_bound=5)`): from root `r`, extend simple paths
through nodes that come strictly after `r` in insertion order, closing a cycle
whenever an edge back to `r` exists.  `path` is the forward node list,
`last` its final node, `fuel` the number of edges still allowed. -/
def cyclesFromRoot (g : TxGraph) (rest : List String) (r : String) :
    Nat → String → List String → List (List String)
  | 0, _, _ => []
  | fuel + 1, last, path =>
    (successors g last).flatMap fun s =>
      (if s = r then [path] else []) ++
      (if s ∈ rest ∧ s ∉ path then cyclesFromRoot g rest r fuel s (path ++ [s]) else [])

def simpleCyclesAux (g : TxGraph) : List String → List (List String)
  | [] => []
  | r :: rest => cyclesFromRoot g rest r 5 r [r] ++ simpleCyclesAux g rest

def simple_cycles (g : TxGraph) : List (List String) := simpleCyclesAux g g.nodes

/-- Every consecutive pair of the list is an edge of `g`. -/
def chainEdges (g : TxGraph) : List String → Bool
  | [] => true
  | [_] => true
  | a :: b :: t => hasEdge g a b && chainEdges g (b :: t)

/-- One flag emission: one `_flag_account(account_id, pattern, score_bump,
ring_id)` call made by a detector. -/
structure Emission where
  account_id : String
  pattern : String
  score_bump : Int
  ring_id : Option String
deriving DecidableEq, Repr

/-- Python's 02d format directive: zero-pad to at least two digits. -/
def pad2 (n : Nat) : String := if n < 10 then "0" ++ toString n else toString n

def ringIdStr (n : Nat) : String := "RING_" ++ pad2 n

/-- The cycles kept by `detect_bounded_cycles` (`3 <= len(cycle) <= 5`). -/
def keptCycles (g : TxGraph) : List (List String) :=
  (simple_cycles g).filter fun c => decide (3 ≤ c.length) && decide (c.length ≤ 5)

def cycleTag (c : List String) : String := "cycle_length_" ++ toString c.length

def cycleEmissionsFrom (k : Nat) : List (List String) → List Emission
  | [] => []
  | c :: cs =>
    (c.map fun node => ⟨node, cycleTag c, 40, some (ringIdStr k)⟩) ++ cycleEmissionsFrom (k + 1) cs

def cycleEmissions (g : TxGraph) : List Emission := cycleEmissionsFrom 1 (keptCycles g)

structure FraudRing where
  ring_id : String
  member_accounts : List String
  pattern_type : String
  risk_score : ℚ
deriving DecidableEq, Repr, Inhabited

def ringsFrom (k : Nat) : List (List String) → List FraudRing
  | [] => []
  | c :: cs => ⟨ringIdStr k, c, "cycle", (95.3 : ℚ)⟩ :: ringsFrom (k + 1) cs

def fraudRingsOf (g : TxGraph) : List FraudRing := ringsFrom 1 (keptCycles g)

def fanOutEmissions (g : TxGraph) : List Emission :=
  g.nodes.filterMap fun n =>
    if fanOutCondition g n then some ⟨n, "fan_out_smurfing", 30, none⟩ else none

def fanInEmissions (g : TxGraph) : List Emission :=
  g.nodes.filterMap fun n =>
    if fanInCondition g n then some ⟨n, "fan_in_smurfing", 30, none⟩ else none

def shellEmissions (g : TxGraph) : List Emission :=
  g.nodes.filterMap fun n =>
    if shellCondition g n then some ⟨n, "shell_pass_through", 20, none⟩ else none

/-- All `_flag_account` calls of one `run_analysis`, in program order:
cycles, then fan-out, then fan-in, then shells. -/
def allEmissions (g : TxGraph) : List Emission :=
  cycleEmissions g ++ fanOutEmissions g ++ fanInEmissions g ++ shellEmissions g

structure AccountFlag where
  account_id : String
  detected_patterns : List String
  raw_pattern_score : Int
  velocity_score : Int
  ring_id : Option String
deriving DecidableEq, Repr, Inhabited

/-- The `existing` branch of `_flag_account`: append an unseen pattern tag and
add its bump; set `ring_id` only when one is supplied and none is stored. -/
def updateExisting (item : AccountFlag) (em : Emission) : AccountFlag :=
  let item1 :=
    if em.pattern ∈ item.detected_patterns then item
    else { item with
            detected_patterns := item.detected_patterns ++ [em.pattern],
            raw_pattern_score := item.raw_pattern_score + em.score_bump }
  if em.ring_id.isSome ∧ item1.ring_id = none then { item1 with ring_id := em.ring_id } else item1

def _flag_account (g : TxGraph) (accts : List AccountFlag) (em : Emission) : List AccountFlag :=
  if accts.any fun it => decide (it.account_id = em.account_id) then
    accts.map fun it => if it.account_id = em.account_id then updateExisting it em else it
  else
    accts ++ [⟨em.account_id, [em.pattern], em.score_bump,
               _calculate_velocity_score g em.account_id, em.ring_id⟩]

structure SuspiciousAccount where
  account_id : String
  suspicion_score : ℚ
  detected_patterns : List String
  ring_id : Option String
deriving DecidableEq, Repr, Inhabited

structure Summary where
  total_accounts_analyzed : Nat
  suspicious_accounts_flagged : Nat
  fraud_rings_detected : Nat
deriving DecidableEq, Repr

structure Report where
  suspicious_accounts : List SuspiciousAccount
  fraud_rings : List FraudRing
  summary : Summary
deriving DecidableEq, Repr

structure Engine where
  G : TxGraph
  suspicious_accounts : List AccountFlag
  fraud_rings : List FraudRing
deriving DecidableEq, Repr

def GraphEngine (rows : List Row) : Engine := ⟨from_pandas_edgelist rows, [], []⟩

def detect_bounded_cycles (e : Engine) : Engine :=
  ⟨e.G, (cycleEmissions e.G).foldl (_flag_account e.G) e.suspicious_accounts,
    e.fraud_rings ++ fraudRingsOf e.G⟩

def detect_temporal_smurfing (e : Engine) : Engine :=
  ⟨e.G, (fanOutEmissions e.G ++ fanInEmissions e.G).foldl (_flag_account e.G) e.suspicious_accounts,
    e.fraud_rings⟩

def detect_shell_pass_throughs (e : Engine) : Engine :=
  ⟨e.G, (shellEmissions e.G).foldl (_flag_account e.G) e.suspicious_accounts, e.fraud_rings⟩

/-- Final scoring of one accumulator entry (`run_analysis` loop body). -/
def finalizeAccount (acct : AccountFlag) : SuspiciousAccount :=
  let total_raw : ℚ := (acct.raw_pattern_score : ℚ) + (acct.velocity_score : ℚ)
  let total_raw2 := if 1 < acct.detected_patterns.length then total_raw * (1.2 : ℚ) else total_raw
  ⟨acct.account_id, min total_raw2 (100 : ℚ), acct.detected_patterns, acct.ring_id⟩

/-- `run_analysis`: run the three detectors in order, then score and report.
Wall-clock `processing_time_seconds` is outside the pure model. -/
def run_analysis (e : Engine) : Engine × Report :=
  let e2 := detect_shell_pass_throughs (detect_temporal_smurfing (detect_bounded_cycles e))
  (e2,
   ⟨e2.suspicious_accounts.map finalizeAccount, e2.fraud_rings,
    ⟨e2.G.nodes.length, (e2.suspicious_accounts.map finalizeAccount).length,
     e2.fraud_rings.length⟩⟩)

def analysisReport (g : TxGraph) : Report := (run_analysis ⟨g, [], []⟩).2

/-- Account `n` appears in the report flagged with pattern tag `tag`. -/
def Flagged (g : TxGraph) (n tag : String) : Prop :=
  ∃ s ∈ (analysisReport g).suspicious_accounts, s.account_id = n ∧ tag ∈ s.detected_patterns

/-- Tag membership in the raw accumulator. -/
def hasTag (accts : List AccountFlag) (a tag : String) : Prop :=
  ∃ e ∈ accts, e.account_id = a ∧ tag ∈ e.detected_patterns

/-- The accumulator state after all detector emissions of one fresh run. -/
def runAccum (g : TxGraph) : List AccountFlag :=
  (allEmissions g).foldl (_flag_account g) []

/-- A state absorbs an emission when flagging it again changes nothing: the
account already has an entry, every matching entry already carries the tag,
and it already has a ring when the emission supplies one. -/
def AbsorbsEm (S : List AccountFlag) (em : Emission) : Prop :=
  (∃ e ∈ S, e.account_id = em.account_id) ∧
  ∀ e ∈ S, e.account_id = em.account_id →
    em.pattern ∈ e.detected_patterns ∧ (em.ring_id.isSome = true → e.ring_id.isSome = true)

/-- `c` is a simple directed cycle of `g`: nonempty, pairwise-distinct nodes,
and an edge from each node to its cyclic successor. -/
def IsSimpleCycle (g : TxGraph) (c : List String) : Prop :=
  c ≠ [] ∧ c.Nodup ∧
    ∀ i < c.length, hasEdge g (c.getD i "") (c.getD ((i + 1) % c.length) "") = true

/-- The distinct graph edges incident to `a` (either direction), each once. -/
def incidentEdges (g : TxGraph) (a : String) : List TxEdge :=
  g.edges.filter fun e => decide (e.src = a) || decide (e.dst = a)

/-- Claim C2's velocity contract, read literally from the spec: `10` iff two
distinct incident edges have timestamps less than 3600 seconds apart. -/
def claim_velocity_score (g : TxGraph) (a : String) : Int :=
  if a ∈ g.nodes ∧ ∃ e1 ∈ incidentEdges g a, ∃ e2 ∈ incidentEdges g a,
      e1 ≠ e2 ∧ |e1.timestamp - e2.timestamp| < 3600 then 10
  else 0

/-- Two parallel transactions over the same ordered pair. -/
def rowsC1 : List Row := [⟨"tx1", "A", "B", 100, 0⟩, ⟨"tx2", "A", "B", 50, 10⟩]

/-- A single self-loop transaction. -/
def rowsSelfLoop : List Row := [⟨"t1", "A", "A", 5, 0⟩]

/-- Scenario S1: a 3-cycle `A -> B -> C -> A` half an hour apart. -/
def rowsCycle3 : List Row :=
  [⟨"t1", "A", "B", 10, 0⟩, ⟨"t2", "B", "C", 10, 1800⟩, ⟨"t3", "C", "A", 10, 3600⟩]

/-- Scenario S2: hub `H` pays `R1..R10` within an hour and every receiver
forwards to `Z`. -/
def rowsFanOut : List Row :=
  [⟨"f1", "H", "R1", 9, 100⟩, ⟨"f2", "H", "R2", 9, 200⟩, ⟨"f3", "H", "R3", 9, 300⟩,
   ⟨"f4", "H", "R4", 9, 400⟩, ⟨"f5", "H", "R5", 9, 500⟩, ⟨"f6", "H", "R6", 9, 600⟩,
   ⟨"f7", "H", "R7", 9, 700⟩, ⟨"f8", "H", "R8", 9, 800⟩, ⟨"f9", "H", "R9", 9, 900⟩,
   ⟨"f10", "H", "R10", 9, 1000⟩,
   ⟨"g1", "R1", "Z", 9, 50001⟩, ⟨"g2", "R2", "Z", 9, 50002⟩, ⟨"g3", "R3", "Z", 9, 50003⟩,
   ⟨"g4", "R4", "Z", 9, 50004⟩, ⟨"g5", "R5", "Z", 9, 50005⟩, ⟨"g6", "R6", "Z", 9, 50006⟩,
   ⟨"g7", "R7", "Z", 9, 50007⟩, ⟨"g8", "R8", "Z", 9, 50008⟩, ⟨"g9", "R9", "Z", 9, 50009⟩,
   ⟨"g10", "R10", "Z", 9, 50010⟩]

/-- Scenario S4: ten senders pay `X` within 72 hours and `X` forwards once. -/
def rowsFanIn : List Row :=
  [⟨"h1", "S1", "X", 9, 100⟩, ⟨"h2", "S2", "X", 9, 200⟩, ⟨"h3", "S3", "X", 9, 300⟩,
   ⟨"h4", "S4", "X", 9, 400⟩, ⟨"h5", "S5", "X", 9, 500⟩, ⟨"h6", "S6", "X", 9, 600⟩,
   ⟨"h7", "S7", "X", 9, 700⟩, ⟨"h8", "S8", "X", 9, 800⟩, ⟨"h9", "S9", "X", 9, 900⟩,
   ⟨"h10", "S10", "X", 9, 1000⟩, ⟨"h11", "X", "Y", 90, 2000⟩]

/-- A pass-through chain `PP -> P -> N -> S`. -/
def rowsShell : List Row :=
  [⟨"s1", "PP", "P", 9, 0⟩, ⟨"s2", "P", "N", 9, 100⟩, ⟨"s3", "N", "S", 9, 200⟩]

/-! Basic lemmas about the flag accumulator. -/

lemma updateExisting_account_id (item : AccountFlag) (em : Emission) :
    (updateExisting item em).account_id = item.account_id := by
  unfold updateExisting
  dsimp only
  split <;> split <;> rfl

lemma updateExisting_patterns (item : AccountFlag) (em : Emission) :
    (updateExisting item em).detected_patterns =
      if em.pattern ∈ item.detected_patterns then item.detected_patterns
      else item.detected_patterns ++ [em.pattern] := by
  unfold updateExisting
  dsimp only
  split <;> split <;> simp_all

lemma updateExisting_raw (item : AccountFlag) (em : Emission) :
    (updateExisting item em).raw_pattern_score =
      if em.pattern ∈ item.detected_patterns then item.raw_pattern_score
      else item.raw_pattern_score + em.score_bump := by
  unfold updateExisting
  dsimp only
  split <;> split <;> simp_all

lemma updateExisting_velocity (item : AccountFlag) (em : Emission) :
    (updateExisting item em).velocity_score = item.velocity_score := by
  unfold updateExisting
  dsimp only
  split <;> split <;> rfl

lemma updateExisting_ring (item : AccountFlag) (em : Emission) :
    (updateExisting item em).ring_id =
      if em.ring_id.isSome ∧ item.ring_id = none then em.ring_id else item.ring_id := by
  unfold updateExisting
  dsimp only
  split <;> split <;> simp_all

lemma flag_account_eq (g : TxGraph) (accts : List AccountFlag) (em : Emission) :
    _flag_account g accts em =
      if ∃ e ∈ accts, e.account_id = em.account_id then
        accts.map fun it => if it.account_id = em.account_id then updateExisting it em else it
      else
        accts ++ [⟨em.account_id, [em.pattern], em.score_bump,
                   _calculate_velocity_score g em.account_id, em.ring_id⟩] := by
  unfold _flag_account
  by_cases h : ∃ e ∈ accts, e.account_id = em.account_id
  · have hb : (accts.any fun it => decide (it.account_id = em.account_id)) = true := by
      rcases h with ⟨e, he, hee⟩
      exact List.any_eq_true.mpr ⟨e, he, by simp [hee]⟩
    simp [hb, h]
  · have hb : (accts.any fun it => decide (it.account_id = em.account_id)) = false := by
      rw [List.any_eq_false]
      intro e he
      simp only [decide_eq_true_iff]
      exact fun hee => h ⟨e, he, hee⟩
    simp [hb, h]

lemma hasTag_flag (g : TxGraph) (S : List AccountFlag) (em : Emission) (a tag : String) :
    hasTag (_flag_account g S em) a tag ↔
      hasTag S a tag ∨ (em.account_id = a ∧ em.pattern = tag) := by
  rw [flag_account_eq]
  split
  case isTrue h =>
    unfold hasTag
    constructor
    · rintro ⟨e', he', hacc, htag⟩
      rcases List.mem_map.mp he' with ⟨e, he, rfl⟩
      by_cases hea : e.account_id = em.account_id
      · rw [if_pos hea] at hacc htag
        rw [updateExisting_account_id] at hacc
        rw [updateExisting_patterns] at htag
        split at htag
        · exact Or.inl ⟨e, he, hacc, htag⟩
        · rcases List.mem_append.mp htag with h1 | h2
          · exact Or.inl ⟨e, he, hacc, h1⟩
          · exact Or.inr ⟨hea.symm.trans hacc, (List.mem_singleton.mp h2).symm⟩
      · rw [if_neg hea] at hacc htag
        exact Or.inl ⟨e, he, hacc, htag⟩
    · rintro (⟨e, he, hacc, htag⟩ | ⟨hacc, htag⟩)
      · refine ⟨if e.account_id = em.account_id then updateExisting e em else e,
          List.mem_map.mpr ⟨e, he, rfl⟩, ?_, ?_⟩
        · split
          · rw [updateExisting_account_id]; exact hacc
          · exact hacc
        · split
          · rw [updateExisting_patterns]
            split
            · exact htag
            · exact List.mem_append.mpr (Or.inl htag)
          · exact htag
      · rcases h with ⟨e, he, hee⟩
        refine ⟨updateExisting e em, List.mem_map.mpr ⟨e, he, by rw [if_pos hee]⟩, ?_, ?_⟩
        · rw [updateExisting_account_id]; exact hee.trans hacc
        · rw [updateExisting_patterns]
          split
          case isTrue hp => exact htag ▸ hp
          case isFalse hp => exact List.mem_append.mpr (Or.inr (htag ▸ List.mem_singleton_self _))
  case isFalse h =>
    unfold hasTag
    constructor
    · rintro ⟨e', he', hacc, htag⟩
      rcases List.mem_append.mp he' with he' | he'
      · exact Or.inl ⟨e', he', hacc, htag⟩
      · rcases List.mem_singleton.mp he' with rfl
        exact Or.inr ⟨hacc, (List.mem_singleton.mp htag).symm⟩
    · rintro (⟨e, he, hacc, htag⟩ | ⟨hacc, htag⟩)
      · exact ⟨e, List.mem_append.mpr (Or.inl he), hacc, htag⟩
      · exact ⟨_, List.mem_append.mpr (Or.inr (List.mem_singleton_self _)), hacc,
          htag ▸ List.mem_singleton_self _⟩

lemma hasTag_foldl (g : TxGraph) (L : List Emission) (S : List AccountFlag) (a tag : String) :
    hasTag (L.foldl (_flag_account g) S) a tag ↔
      hasTag S a tag ∨ ∃ em ∈ L, em.account_id = a ∧ em.pattern = tag := by
  induction L generalizing S with
  | nil => simp [hasTag]
  | cons em L ih =>
    simp only [List.foldl_cons]
    rw [ih, hasTag_flag]
    constructor
    · rintro ((h | h) | ⟨em', hm, h⟩)
      · exact Or.inl h
      · exact Or.inr ⟨em, List.mem_cons_self em L, h⟩
      · exact Or.inr ⟨em', List.mem_cons_of_mem _ hm, h⟩
    · rintro (h | ⟨em', hm, h⟩)
      · exact Or.inl (Or.inl h)
      · rcases List.mem_cons.mp hm with rfl | hm
        · exact Or.inl (Or.inr h)
        · exact Or.inr ⟨em', hm, h⟩

/-- C1: the spec requires one directed edge per transaction row, with parallel
edges between the same ordered pair preserved as distinct edges carrying their
own attributes.  The code builds `nx.DiGraph()`, so on `rowsC1` (two
transactions `A -> B`) the second row overwrites the first: the built graph has
a single edge, carrying only `tx2`'s attributes. -/
theorem C1_parallel_edges_collapsed :
    rowsC1.length = 2 ∧
    (from_pandas_edgelist rowsC1).edges.length = 1 ∧
    (from_pandas_edgelist rowsC1).edges.map (fun e => e.transaction_id) = ["tx2"] := by
  decide

/-- C9: the report is a pure function of the input table, so two separate
analysis runs, each on a freshly built engine over the same input, produce
identical reports in every modeled field (wall-clock `processing_time_seconds`
is outside the pure model). -/
theorem C9_determinism (rows1 rows2 : List Row) (h : rows1 = rows2) :
    (run_analysis (GraphEngine rows1)).2 = (run_analysis (GraphEngine rows2)).2 := by
  rw [h]

/-- Witness for C9 at a concrete input. -/
theorem C9_determinism_witness :
    (run_analysis (GraphEngine rowsCycle3)).2 = (run_analysis (GraphEngine rowsCycle3)).2 :=
  C9_determinism rowsCycle3 rowsCycle3 rfl

lemma windowPassed_iff (ts : List Int) :
    windowPassed ts = true ↔
      ∃ i, i + 9 < ts.length ∧ ts.getD (i + 9) 0 - ts.getD i 0 ≤ WINDOW_SECONDS := by
  unfold windowPassed
  rw [List.any_eq_true]
  constructor
  · rintro ⟨i, hi, hd⟩
    rw [List.mem_range] at hi
    exact ⟨i, by omega, of_decide_eq_true hd⟩
  · rintro ⟨i, hi, hd⟩
    exact ⟨i, List.mem_range.mpr (by omega), decide_eq_true hd⟩

lemma fanOutCondition_iff (g : TxGraph) (n : String) :
    fanOutCondition g n = true ↔
      10 ≤ (outEdges g n).length ∧
      (∃ i, i + 9 < (sortedOutTimestamps g n).length ∧
        (sortedOutTimestamps g n).getD (i + 9) 0 - (sortedOutTimestamps g n).getD i 0 ≤
          WINDOW_SECONDS) ∧
      ∀ r ∈ (outEdges g n).map (·.dst), 0 < out_degree g r := by
  unfold fanOutCondition
  split
  case isTrue h =>
    simp only [Bool.false_eq_true, false_iff]
    rintro ⟨h10, -⟩
    omega
  case isFalse h =>
    rw [Bool.and_eq_true, windowPassed_iff, List.all_eq_true]
    constructor
    · rintro ⟨hw, hall⟩
      exact ⟨by omega, hw, fun r hr => of_decide_eq_true (hall r hr)⟩
    · rintro ⟨-, hw, hall⟩
      exact ⟨hw, fun r hr => decide_eq_true (hall r hr)⟩

lemma fanInCondition_iff (g : TxGraph) (n : String) :
    fanInCondition g n = true ↔
      10 ≤ (inEdges g n).length ∧
      (∃ i, i + 9 < (sortedInTimestamps g n).length ∧
        (sortedInTimestamps g n).getD (i + 9) 0 - (sortedInTimestamps g n).getD i 0 ≤
          WINDOW_SECONDS) ∧
      out_degree g n = 1 := by
  unfold fanInCondition
  split
  case isTrue h =>
    simp only [Bool.false_eq_true, false_iff]
    rintro ⟨h10, -⟩
    omega
  case isFalse h =>
    rw [Bool.and_eq_true, windowPassed_iff]
    constructor
    · rintro ⟨hw, hd⟩
      exact ⟨by omega, hw, of_decide_eq_true hd⟩
    · rintro ⟨-, hw, hd⟩
      exact ⟨hw, decide_eq_true hd⟩

lemma shellCondition_iff (g : TxGraph) (n : String) :
    shellCondition g n = true ↔
      (in_degree g n + out_degree g n = 2 ∨ in_degree g n + out_degree g n = 3) ∧
      1 ≤ in_degree g n ∧ 1 ≤ out_degree g n ∧
      ∃ p ∈ predecessors g n, ∃ s ∈ successors g n,
        0 < in_degree g p ∨ 0 < out_degree g s := by
  unfold shellCondition
  simp only [Bool.and_eq_true, Bool.or_eq_true, List.any_eq_true, decide_eq_true_eq]
  constructor
  · rintro ⟨⟨hA, hB1, hB2⟩, p, hp, s, hs, hps⟩
    exact ⟨hA, hB1, hB2, p, hp, s, hs, hps⟩
  · rintro ⟨hA, hB1, hB2, p, hp, s, hs, hps⟩
    exact ⟨⟨hA, hB1, hB2⟩, p, hp, s, hs, hps⟩

lemma mem_fanOutEmissions (g : TxGraph) (em : Emission) :
    em ∈ fanOutEmissions g ↔
      ∃ n ∈ g.nodes, fanOutCondition g n = true ∧ em = ⟨n, "fan_out_smurfing", 30, none⟩ := by
  unfold fanOutEmissions
  rw [List.mem_filterMap]
  constructor
  · rintro ⟨n, hn, hsome⟩
    split at hsome
    case isTrue hc => exact ⟨n, hn, hc, (Option.some.inj hsome).symm⟩
    case isFalse hc => cases hsome
  · rintro ⟨n, hn, hc, rfl⟩
    exact ⟨n, hn, by rw [if_pos hc]⟩

lemma mem_fanInEmissions (g : TxGraph) (em : Emission) :
    em ∈ fanInEmissions g ↔
      ∃ n ∈ g.nodes, fanInCondition g n = true ∧ em = ⟨n, "fan_in_smurfing", 30, none⟩ := by
  unfold fanInEmissions
  rw [List.mem_filterMap]
  constructor
  · rintro ⟨n, hn, hsome⟩
    split at hsome
    case isTrue hc => exact ⟨n, hn, hc, (Option.some.inj hsome).symm⟩
    case isFalse hc => cases hsome
  · rintro ⟨n, hn, hc, rfl⟩
    exact ⟨n, hn, by rw [if_pos hc]⟩

lemma mem_shellEmissions (g : TxGraph) (em : Emission) :
    em ∈ shellEmissions g ↔
      ∃ n ∈ g.nodes, shellCondition g n = true ∧ em = ⟨n, "shell_pass_through", 20, none⟩ := by
  unfold shellEmissions
  rw [List.mem_filterMap]
  constructor
  · rintro ⟨n, hn, hsome⟩
    split at hsome
    case isTrue hc => exact ⟨n, hn, hc, (Option.some.inj hsome).symm⟩
    case isFalse hc => cases hsome
  · rintro ⟨n, hn, hc, rfl⟩
    exact ⟨n, hn, by rw [if_pos hc]⟩

lemma mem_cycleEmissionsFrom (k : Nat) (cs : List (List String)) (em : Emission)
    (h : em ∈ cycleEmissionsFrom k cs) :
    ∃ c ∈ cs, ∃ node ∈ c, ∃ j, em = ⟨node, cycleTag c, 40, some (ringIdStr j)⟩ := by
  induction cs generalizing k with
  | nil => cases h
  | cons c cs ih =>
    rcases List.mem_append.mp h with h | h
    · rcases List.mem_map.mp h with ⟨node, hn, rfl⟩
      exact ⟨c, List.mem_cons_self _ _, node, hn, k, rfl⟩
    · rcases ih (k + 1) h with ⟨c', hc', rest⟩
      exact ⟨c', List.mem_cons_of_mem _ hc', rest⟩

lemma cycleTag_ne (c : List String) (s : String) (hs : s.data.head? ≠ some 'c') :
    cycleTag c ≠ s := by
  unfold cycleTag
  intro he
  apply hs
  rw [← he]
  generalize toString c.length = t
  obtain ⟨l⟩ := t
  rfl

lemma engine_accum (e : Engine) :
    detect_shell_pass_throughs (detect_temporal_smurfing (detect_bounded_cycles e)) =
      ⟨e.G, (allEmissions e.G).foldl (_flag_account e.G) e.suspicious_accounts,
        e.fraud_rings ++ fraudRingsOf e.G⟩ := by
  unfold detect_shell_pass_throughs detect_temporal_smurfing detect_bounded_cycles allEmissions
  simp [List.foldl_append]

lemma finalizeAccount_account_id (e : AccountFlag) :
    (finalizeAccount e).account_id = e.account_id := rfl

lemma finalizeAccount_patterns (e : AccountFlag) :
    (finalizeAccount e).detected_patterns = e.detected_patterns := rfl

lemma finalizeAccount_ring (e : AccountFlag) :
    (finalizeAccount e).ring_id = e.ring_id := rfl

lemma report_parts (g : TxGraph) :
    (analysisReport g).suspicious_accounts = (runAccum g).map finalizeAccount ∧
    (analysisReport g).fraud_rings = fraudRingsOf g ∧
    (analysisReport g).summary =
      ⟨g.nodes.length, ((runAccum g).map finalizeAccount).length, (fraudRingsOf g).length⟩ := by
  have h := engine_accum ⟨g, [], []⟩
  unfold analysisReport run_analysis runAccum
  rw [h]
  simp

lemma flagged_iff_emission (g : TxGraph) (n tag : String) :
    Flagged g n tag ↔ ∃ em ∈ allEmissions g, em.account_id = n ∧ em.pattern = tag := by
  unfold Flagged
  rw [(report_parts g).1]
  have step : (∃ s ∈ (runAccum g).map finalizeAccount, s.account_id = n ∧
      tag ∈ s.detected_patterns) ↔ hasTag (runAccum g) n tag := by
    constructor
    · rintro ⟨s, hs, hacc, htag⟩
      rcases List.mem_map.mp hs with ⟨e, he, rfl⟩
      rw [finalizeAccount_account_id] at hacc
      rw [finalizeAccount_patterns] at htag
      exact ⟨e, he, hacc, htag⟩
    · rintro ⟨e, he, hacc, htag⟩
      exact ⟨finalizeAccount e, List.mem_map.mpr ⟨e, he, rfl⟩, hacc, htag⟩
  rw [step]
  unfold runAccum
  rw [hasTag_foldl]
  simp [hasTag]

lemma mem_allEmissions (g : TxGraph) (em : Emission) :
    em ∈ allEmissions g ↔
      em ∈ cycleEmissions g ∨ em ∈ fanOutEmissions g ∨
      em ∈ fanInEmissions g ∨ em ∈ shellEmissions g := by
  unfold allEmissions
  simp [List.mem_append, or_assoc]

lemma emission_tag_cases (g : TxGraph) (em : Emission) (h : em ∈ allEmissions g) :
    (∃ c ∈ keptCycles g, ∃ node ∈ c, ∃ j, em = ⟨node, cycleTag c, 40, some (ringIdStr j)⟩) ∨
    (∃ n ∈ g.nodes, fanOutCondition g n = true ∧ em = ⟨n, "fan_out_smurfing", 30, none⟩) ∨
    (∃ n ∈ g.nodes, fanInCondition g n = true ∧ em = ⟨n, "fan_in_smurfing", 30, none⟩) ∨
    (∃ n ∈ g.nodes, shellCondition g n = true ∧ em = ⟨n, "shell_pass_through", 20, none⟩) := by
  rcases (mem_allEmissions g em).mp h with h | h | h | h
  · exact Or.inl (mem_cycleEmissionsFrom 1 _ em h)
  · exact Or.inr (Or.inl ((mem_fanOutEmissions g em).mp h))
  · exact Or.inr (Or.inr (Or.inl ((mem_fanInEmissions g em).mp h)))
  · exact Or.inr (Or.inr (Or.inr ((mem_shellEmissions g em).mp h)))

/-- C3: a node `n` is flagged `fan_out_smurfing` — emitted with score bump 30
and no ring — if and only if `n` has at least 10 out-edges, some window of 10
consecutive sorted out-edge timestamps spans at most 259200 seconds
(`t[i+9] - t[i] <= W`), and every out-neighbor `r` of `n` has
`out_degree(r) > 0`; in particular a receiver of out-degree 0 suppresses the
flag. -/
theorem C3_fan_out_smurfing (g : TxGraph) (n : String) :
    (Flagged g n "fan_out_smurfing" ↔
      n ∈ g.nodes ∧ 10 ≤ (outEdges g n).length ∧
      (∃ i, i + 9 < (sortedOutTimestamps g n).length ∧
        (sortedOutTimestamps g n).getD (i + 9) 0 - (sortedOutTimestamps g n).getD i 0 ≤
          WINDOW_SECONDS) ∧
      ∀ r ∈ (outEdges g n).map (·.dst), 0 < out_degree g r) ∧
    ∀ em ∈ allEmissions g, em.pattern = "fan_out_smurfing" →
      em.score_bump = 30 ∧ em.ring_id = none := by
  constructor
  · rw [flagged_iff_emission]
    constructor
    · rintro ⟨em, hmem, hacc, hpat⟩
      rcases emission_tag_cases g em hmem with
        ⟨c, -, node, -, j, rfl⟩ | ⟨m, hm, hc, rfl⟩ | ⟨m, -, -, rfl⟩ | ⟨m, -, -, rfl⟩
      · exact absurd hpat (cycleTag_ne c _ (by decide))
      · obtain rfl : m = n := hacc
        exact ⟨hm, (fanOutCondition_iff _ _).mp hc⟩
      · exact absurd (show ("fan_in_smurfing" : String) = "fan_out_smurfing" from hpat)
          (by decide)
      · exact absurd (show ("shell_pass_through" : String) = "fan_out_smurfing" from hpat)
          (by decide)
    · rintro ⟨hm, hrest⟩
      exact ⟨⟨n, "fan_out_smurfing", 30, none⟩,
        (mem_allEmissions g _).mpr (Or.inr (Or.inl ((mem_fanOutEmissions g _).mpr
          ⟨n, hm, (fanOutCondition_iff g n).mpr hrest, rfl⟩))), rfl, rfl⟩
  · rintro em hmem hpat
    rcases emission_tag_cases g em hmem with
      ⟨c, -, node, -, j, rfl⟩ | ⟨m, -, -, rfl⟩ | ⟨m, -, -, rfl⟩ | ⟨m, -, -, rfl⟩
    · exact absurd hpat (cycleTag_ne c _ (by decide))
    · exact ⟨rfl, rfl⟩
    · exact absurd (show ("fan_in_smurfing" : String) = "fan_out_smurfing" from hpat)
        (by decide)
    · exact absurd (show ("shell_pass_through" : String) = "fan_out_smurfing" from hpat)
        (by decide)

set_option maxRecDepth 40000

/-- Witness for C3: in `rowsFanOut` the hub `H` is flagged `fan_out_smurfing`. -/
theorem C3_fan_out_smurfing_witness :
    Flagged (from_pandas_edgelist rowsFanOut) "H" "fan_out_smurfing" :=
  ((C3_fan_out_smurfing (from_pandas_edgelist rowsFanOut) "H").1).mpr
    ⟨by decide, by decide, ⟨0, by decide, by decide⟩, by decide⟩

/-- C4: a node `n` is flagged `fan_in_smurfing` (score bump 30) if and only if
`n` has at least 10 in-edges, some window of 10 consecutive sorted in-edge
timestamps spans at most 259200 seconds, and `out_degree(n) == 1`; nodes with
fewer than 10 in-edges or out-degree different from 1 are never flagged. -/
theorem C4_fan_in_smurfing (g : TxGraph) (n : String) :
    (Flagged g n "fan_in_smurfing" ↔
      n ∈ g.nodes ∧ 10 ≤ (inEdges g n).length ∧
      (∃ i, i + 9 < (sortedInTimestamps g n).length ∧
        (sortedInTimestamps g n).getD (i + 9) 0 - (sortedInTimestamps g n).getD i 0 ≤
          WINDOW_SECONDS) ∧
      out_degree g n = 1) ∧
    ∀ em ∈ allEmissions g, em.pattern = "fan_in_smurfing" → em.score_bump = 30 := by
  constructor
  · rw [flagged_iff_emission]
    constructor
    · rintro ⟨em, hmem, hacc, hpat⟩
      rcases emission_tag_cases g em hmem with
        ⟨c, -, node, -, j, rfl⟩ | ⟨m, -, -, rfl⟩ | ⟨m, hm, hc, rfl⟩ | ⟨m, -, -, rfl⟩
      · exact absurd hpat (cycleTag_ne c _ (by decide))
      · exact absurd (show ("fan_out_smurfing" : String) = "fan_in_smurfing" from hpat)
          (by decide)
      · obtain rfl : m = n := hacc
        exact ⟨hm, (fanInCondition_iff _ _).mp hc⟩
      · exact absurd (show ("shell_pass_through" : String) = "fan_in_smurfing" from hpat)
          (by decide)
    · rintro ⟨hm, hrest⟩
      exact ⟨⟨n, "fan_in_smurfing", 30, none⟩,
        (mem_allEmissions g _).mpr (Or.inr (Or.inr (Or.inl ((mem_fanInEmissions g _).mpr
          ⟨n, hm, (fanInCondition_iff g n).mpr hrest, rfl⟩)))), rfl, rfl⟩
  · rintro em hmem hpat
    rcases emission_tag_cases g em hmem with
      ⟨c, -, node, -, j, rfl⟩ | ⟨m, -, -, rfl⟩ | ⟨m, -, -, rfl⟩ | ⟨m, -, -, rfl⟩
    · exact absurd hpat (cycleTag_ne c _ (by decide))
    · exact absurd (show ("fan_out_smurfing" : String) = "fan_in_smurfing" from hpat)
        (by decide)
    · rfl
    · exact absurd (show ("shell_pass_through" : String) = "fan_in_smurfing" from hpat)
        (by decide)

/-- Witness for C4: in `rowsFanIn` the collector `X` is flagged
`fan_in_smurfing`. -/
theorem C4_fan_in_smurfing_witness :
    Flagged (from_pandas_edgelist rowsFanIn) "X" "fan_in_smurfing" :=
  ((C4_fan_in_smurfing (from_pandas_edgelist rowsFanIn) "X").1).mpr
    ⟨by decide, by decide, ⟨0, by decide, by decide⟩, by decide⟩

/-- C5: a node `n` is flagged `shell_pass_through` (score bump 20) if and only
if `in_degree(n) + out_degree(n)` is 2 or 3, both degrees are at least 1, and
there exist a predecessor `p` and a successor `s` with `in_degree(p) > 0` or
`out_degree(s) > 0`. -/
theorem C5_shell_pass_through (g : TxGraph) (n : String) :
    (Flagged g n "shell_pass_through" ↔
      n ∈ g.nodes ∧
      (in_degree g n + out_degree g n = 2 ∨ in_degree g n + out_degree g n = 3) ∧
      1 ≤ in_degree g n ∧ 1 ≤ out_degree g n ∧
      ∃ p ∈ predecessors g n, ∃ s ∈ successors g n,
        0 < in_degree g p ∨ 0 < out_degree g s) ∧
    ∀ em ∈ allEmissions g, em.pattern = "shell_pass_through" → em.score_bump = 20 := by
  constructor
  · rw [flagged_iff_emission]
    constructor
    · rintro ⟨em, hmem, hacc, hpat⟩
      rcases emission_tag_cases g em hmem with
        ⟨c, -, node, -, j, rfl⟩ | ⟨m, -, -, rfl⟩ | ⟨m, -, -, rfl⟩ | ⟨m, hm, hc, rfl⟩
      · exact absurd hpat (cycleTag_ne c _ (by decide))
      · exact absurd (show ("fan_out_smurfing" : String) = "shell_pass_through" from hpat)
          (by decide)
      · exact absurd (show ("fan_in_smurfing" : String) = "shell_pass_through" from hpat)
          (by decide)
      · obtain rfl : m = n := hacc
        exact ⟨hm, (shellCondition_iff _ _).mp hc⟩
    · rintro ⟨hm, hrest⟩
      exact ⟨⟨n, "shell_pass_through", 20, none⟩,
        (mem_allEmissions g _).mpr (Or.inr (Or.inr (Or.inr ((mem_shellEmissions g _).mpr
          ⟨n, hm, (shellCondition_iff g n).mpr hrest, rfl⟩)))), rfl, rfl⟩
  · rintro em hmem hpat
    rcases emission_tag_cases g em hmem with
      ⟨c, -, node, -, j, rfl⟩ | ⟨m, -, -, rfl⟩ | ⟨m, -, -, rfl⟩ | ⟨m, -, -, rfl⟩
    · exact absurd hpat (cycleTag_ne c _ (by decide))
    · exact absurd (show ("fan_out_smurfing" : String) = "shell_pass_through" from hpat)
        (by decide)
    · exact absurd (show ("fan_in_smurfing" : String) = "shell_pass_through" from hpat)
        (by decide)
    · rfl

/-- Witness for C5: in the chain `PP -> P -> N -> S` the middle node `N` is
flagged `shell_pass_through`. -/
theorem C5_shell_pass_through_witness :
    Flagged (from_pandas_edgelist rowsShell) "N" "shell_pass_through" :=
  ((C5_shell_pass_through (from_pandas_edgelist rowsShell) "N").1).mpr (by decide)

/-! Soundness of the bounded cycle enumeration. -/

lemma hasEdge_of_mem_successors (g : TxGraph) (last s : String)
    (h : s ∈ successors g last) : hasEdge g last s = true := by
  unfold successors at h
  rcases List.mem_map.mp h with ⟨e, he, rfl⟩
  have hsrc := List.of_mem_filter he
  rw [decide_eq_true_iff] at hsrc
  unfold hasEdge
  rw [List.any_eq_true]
  exact ⟨e, List.mem_of_mem_filter he, by simp [hsrc]⟩

lemma chainEdges_concat (g : TxGraph) :
    ∀ (xs : List String) (last s : String), xs.getLast? = some last →
      chainEdges g xs = true → hasEdge g last s = true →
      chainEdges g (xs ++ [s]) = true := by
  intro xs
  induction xs with
  | nil => intro last s h; simp at h
  | cons a t ih =>
    intro last s hl hc he
    cases t with
    | nil =>
      have ha : a = last := by simpa using hl
      subst ha
      simp only [List.cons_append, List.nil_append]
      unfold chainEdges
      rw [Bool.and_eq_true]
      exact ⟨he, rfl⟩
    | cons b t2 =>
      rw [List.getLast?_cons_cons] at hl
      simp only [List.cons_append]
      unfold chainEdges at hc ⊢
      rw [Bool.and_eq_true] at hc
      rw [Bool.and_eq_true]
      exact ⟨hc.1, ih last s hl hc.2 he⟩

lemma chainEdges_getD (g : TxGraph) :
    ∀ (c : List String) (i : Nat), i + 1 < c.length → chainEdges g c = true →
      hasEdge g (c.getD i "") (c.getD (i + 1) "") = true := by
  intro c
  induction c with
  | nil => intro i hi; simp at hi
  | cons a t ih =>
    intro i hi hc
    cases t with
    | nil => simp at hi
    | cons b t2 =>
      unfold chainEdges at hc
      rw [Bool.and_eq_true] at hc
      cases i with
      | zero => simpa using hc.1
      | succ j =>
        have hj : j + 1 < (b :: t2).length := by
          simp only [List.length_cons] at hi ⊢
          omega
        simpa using ih j hj hc.2

lemma isSimpleCycle_of_parts (g : TxGraph) (c : List String) (hne : c ≠ [])
    (hnd : c.Nodup) (hch : chainEdges g c = true)
    (hcl : hasEdge g ((c.getLast?).getD "") (c.headD "") = true) :
    IsSimpleCycle g c := by
  refine ⟨hne, hnd, ?_⟩
  intro i hi
  by_cases hlast : i + 1 = c.length
  · have h0 : (i + 1) % c.length = 0 := by rw [hlast]; exact Nat.mod_self _
    rw [h0]
    have hgi : c.getD i "" = (c.getLast?).getD "" := by
      rw [List.getD_eq_getElem?_getD, List.getLast?_eq_getElem?]
      have : c.length - 1 = i := by omega
      rw [this]
    have hg0 : c.getD 0 "" = c.headD "" := by
      cases c with
      | nil => cases hne rfl
      | cons a t => rfl
    rw [hgi, hg0]
    exact hcl
  · rw [Nat.mod_eq_of_lt (by omega)]
    exact chainEdges_getD g c i (by omega) hch

lemma cyclesFromRoot_sound (g : TxGraph) (rest : List String) (r : String) :
    ∀ (fuel : Nat) (last : String) (path : List String),
      path ≠ [] → path.headD "" = r → path.getLast? = some last → path.Nodup →
      chainEdges g path = true →
      ∀ c ∈ cyclesFromRoot g rest r fuel last path, IsSimpleCycle g c := by
  intro fuel
  induction fuel with
  | zero =>
    intro last path _ _ _ _ _ c hc
    cases hc
  | succ fuel ih =>
    intro last path hne hhead hlast hnd hch c hc
    rw [show cyclesFromRoot g rest r (fuel + 1) last path =
        (successors g last).flatMap (fun s =>
          (if s = r then [path] else []) ++
          (if s ∈ rest ∧ s ∉ path then cyclesFromRoot g rest r fuel s (path ++ [s]) else []))
      from rfl] at hc
    rcases List.mem_flatMap.mp hc with ⟨s, hs, hmem⟩
    rcases List.mem_append.mp hmem with hmem | hmem
    · split at hmem
      case isTrue hsr =>
        rcases List.mem_singleton.mp hmem with rfl
        apply isSimpleCycle_of_parts g c hne hnd hch
        rw [hlast, hhead]
        exact hasEdge_of_mem_successors g last r (hsr ▸ hs)
      case isFalse => cases hmem
    · split at hmem
      case isTrue hcond =>
        obtain ⟨hsrest, hsnot⟩ := hcond
        refine ih s (path ++ [s]) (by simp) ?_ ?_ ?_ ?_ c hmem
        · cases path with
          | nil => cases hne rfl
          | cons a t => exact hhead
        · exact List.getLast?_concat _
        · rw [List.nodup_append]
          exact ⟨hnd, List.nodup_singleton s, by simpa using hsnot⟩
        · exact chainEdges_concat g path last s hlast hch (hasEdge_of_mem_successors g last s hs)
      case isFalse => cases hmem

lemma simple_cycles_sound (g : TxGraph) : ∀ c ∈ simple_cycles g, IsSimpleCycle g c := by
  unfold simple_cycles
  generalize g.nodes = ns
  induction ns with
  | nil => intro c hc; cases hc
  | cons rnode rest ih =>
    intro c hc
    simp only [simpleCyclesAux] at hc
    rcases List.mem_append.mp hc with hc | hc
    · exact cyclesFromRoot_sound g rest rnode 5 rnode [rnode] (by simp) rfl rfl
        (List.nodup_singleton _) rfl c hc
    · exact ih c hc

lemma keptCycles_sound (g : TxGraph) :
    ∀ c ∈ keptCycles g, IsSimpleCycle g c ∧ 3 ≤ c.length ∧ c.length ≤ 5 := by
  intro c hc
  have h1 := List.mem_of_mem_filter hc
  have h2 := List.of_mem_filter hc
  rw [Bool.and_eq_true, decide_eq_true_iff, decide_eq_true_iff] at h2
  exact ⟨simple_cycles_sound g c h1, h2⟩

lemma ringsFrom_length (k : Nat) (cs : List (List String)) :
    (ringsFrom k cs).length = cs.length := by
  induction cs generalizing k with
  | nil => rfl
  | cons c cs ih => simp [ringsFrom, ih]

lemma ringsFrom_getD (k : Nat) (cs : List (List String)) (j : Nat) (hj : j < cs.length) :
    (ringsFrom k cs).getD j default =
      ⟨ringIdStr (k + j), cs.getD j [], "cycle", (95.3 : ℚ)⟩ := by
  induction cs generalizing k j with
  | nil => simp at hj
  | cons c cs ih =>
    cases j with
    | zero => simp [ringsFrom]
    | succ j2 =>
      simp only [ringsFrom, List.getD_cons_succ]
      rw [ih (k + 1) j2 (by simpa using hj)]
      have : k + 1 + j2 = k + (j2 + 1) := by omega
      rw [this]

/-- C6: every record in `fraud_rings` has `ring_id = "RING_" ++ NN` with `NN`
the zero-padded two-digit counter starting at `01` and incremented in
cycle-enumeration order (the `j`-th record carries counter `j + 1`),
`pattern_type = "cycle"`, `risk_score = 95.3`, and `member_accounts` equal to
the `j`-th enumerated cycle, whose length lies in `{3, 4, 5}` and which forms
a simple directed cycle in the graph. -/
theorem C6_fraud_ring_records (g : TxGraph) (j : Nat)
    (hj : j < (analysisReport g).fraud_rings.length) :
    ((analysisReport g).fraud_rings.getD j default).ring_id = "RING_" ++ pad2 (j + 1) ∧
    ((analysisReport g).fraud_rings.getD j default).pattern_type = "cycle" ∧
    ((analysisReport g).fraud_rings.getD j default).risk_score = (95.3 : ℚ) ∧
    ((analysisReport g).fraud_rings.getD j default).member_accounts = (keptCycles g).getD j [] ∧
    3 ≤ ((analysisReport g).fraud_rings.getD j default).member_accounts.length ∧
    ((analysisReport g).fraud_rings.getD j default).member_accounts.length ≤ 5 ∧
    IsSimpleCycle g ((analysisReport g).fraud_rings.getD j default).member_accounts := by
  rw [(report_parts g).2.1] at hj ⊢
  unfold fraudRingsOf at hj ⊢
  have hj2 : j < (keptCycles g).length := by
    rw [ringsFrom_length] at hj
    exact hj
  rw [ringsFrom_getD 1 _ j hj2]
  have hmem : (keptCycles g).getD j [] ∈ keptCycles g := by
    rw [List.getD_eq_getElem _ _ hj2]
    exact List.getElem_mem hj2
  rcases keptCycles_sound g _ hmem with ⟨hsc, h3, h5⟩
  refine ⟨?_, rfl, rfl, rfl, h3, h5, hsc⟩
  unfold ringIdStr
  rw [Nat.add_comm 1 j]

/-- Witness for C6: the single ring of the 3-cycle scenario. -/
theorem C6_fraud_ring_records_witness :
    ((analysisReport (from_pandas_edgelist rowsCycle3)).fraud_rings.getD 0 default).ring_id =
      "RING_" ++ pad2 1 ∧
    ((analysisReport (from_pandas_edgelist rowsCycle3)).fraud_rings.getD 0
      default).pattern_type = "cycle" ∧
    ((analysisReport (from_pandas_edgelist rowsCycle3)).fraud_rings.getD 0
      default).risk_score = (95.3 : ℚ) :=
  ⟨(C6_fraud_ring_records (from_pandas_edgelist rowsCycle3) 0 (by decide)).1,
   (C6_fraud_ring_records (from_pandas_edgelist rowsCycle3) 0 (by decide)).2.1,
   (C6_fraud_ring_records (from_pandas_edgelist rowsCycle3) 0 (by decide)).2.2.1⟩

/-- C7: re-emitting a pattern tag already present leaves every entry's
`detected_patterns` and `raw_pattern_score` unchanged; a `ring_id`, once set,
retains its first-assigned value across all later emissions; and whenever every
emission's bump is determined by its tag, each entry's `raw_pattern_score`
equals the sum of the bumps over its (duplicate-free) distinct tags. -/
theorem C7_accumulator_idempotent_ring_first (g : TxGraph) :
    (∀ (accts : List AccountFlag) (em : Emission),
      (∃ e ∈ accts, e.account_id = em.account_id) →
      (∀ e ∈ accts, e.account_id = em.account_id → em.pattern ∈ e.detected_patterns) →
      (_flag_account g accts em).map
          (fun e => (e.account_id, e.detected_patterns, e.raw_pattern_score)) =
        accts.map (fun e => (e.account_id, e.detected_patterns, e.raw_pattern_score))) ∧
    (∀ (accts : List AccountFlag) (em : Emission) (i : Nat) (r : String),
      i < accts.length → (accts.getD i default).ring_id = some r →
      ((_flag_account g accts em).getD i default).ring_id = some r) ∧
    (∀ (L : List Emission) (β : String → Int),
      (∀ em ∈ L, em.score_bump = β em.pattern) →
      ∀ e ∈ L.foldl (_flag_account g) [],
        e.detected_patterns.Nodup ∧
        e.raw_pattern_score = (e.detected_patterns.map β).sum) := by
  refine ⟨?_, ?_, ?_⟩
  · intro accts em hex hall
    rw [flag_account_eq, if_pos hex, List.map_map]
    apply List.map_congr_left
    intro e he
    simp only [Function.comp_apply]
    by_cases hea : e.account_id = em.account_id
    · rw [if_pos hea]
      have hp := hall e he hea
      rw [Prod.mk.injEq, Prod.mk.injEq]
      refine ⟨updateExisting_account_id e em, ?_, ?_⟩
      · rw [updateExisting_patterns, if_pos hp]
      · rw [updateExisting_raw, if_pos hp]
    · rw [if_neg hea]
  · intro accts em i r hi hr
    rw [flag_account_eq]
    rw [List.getD_eq_getElem _ _ hi] at hr
    split
    case isTrue hex =>
      rw [List.getD_eq_getElem _ _ (by simpa using hi), List.getElem_map]
      split
      case isTrue hea =>
        rw [updateExisting_ring, if_neg]
        · exact hr
        · rintro ⟨-, hnone⟩
          rw [hr] at hnone
          cases hnone
      case isFalse hea => exact hr
    case isFalse hex =>
      have hi2 : i < (accts ++ [(⟨em.account_id, [em.pattern], em.score_bump,
          _calculate_velocity_score g em.account_id, em.ring_id⟩ : AccountFlag)]).length := by
        rw [List.length_append]
        omega
      rw [List.getD_eq_getElem _ _ hi2, List.getElem_append_left hi]
      exact hr
  · intro L β hβ
    have main : ∀ (L2 : List Emission) (S : List AccountFlag),
        (∀ em ∈ L2, em.score_bump = β em.pattern) →
        (∀ e ∈ S, e.detected_patterns.Nodup ∧
          e.raw_pattern_score = (e.detected_patterns.map β).sum) →
        ∀ e ∈ L2.foldl (_flag_account g) S,
          e.detected_patterns.Nodup ∧
          e.raw_pattern_score = (e.detected_patterns.map β).sum := by
      intro L2
      induction L2 with
      | nil =>
        intro S _ hS e he
        exact hS e he
      | cons em L2 ih =>
        intro S hb hS e he
        simp only [List.foldl_cons] at he
        refine ih _ (fun x hx => hb x (List.mem_cons_of_mem _ hx)) ?_ e he
        intro e1 he1
        have hbe : em.score_bump = β em.pattern := hb em (List.mem_cons_self _ _)
        rw [flag_account_eq] at he1
        split at he1
        case isTrue hex =>
          rcases List.mem_map.mp he1 with ⟨e0, he0, rfl⟩
          by_cases hea : e0.account_id = em.account_id
          · rw [if_pos hea]
            rcases hS e0 he0 with ⟨hnd, hsum⟩
            rw [updateExisting_patterns, updateExisting_raw]
            by_cases hp : em.pattern ∈ e0.detected_patterns
            · rw [if_pos hp, if_pos hp]
              exact ⟨hnd, hsum⟩
            · rw [if_neg hp, if_neg hp]
              constructor
              · rw [List.nodup_append]
                exact ⟨hnd, List.nodup_singleton _, by simpa using hp⟩
              · rw [List.map_append, List.sum_append]
                simp [hsum, hbe]
          · rw [if_neg hea]
            exact hS e0 he0
        case isFalse hex =>
          rcases List.mem_append.mp he1 with he1 | he1
          · exact hS _ he1
          · rcases List.mem_singleton.mp he1 with rfl
            refine ⟨List.nodup_singleton _, ?_⟩
            simp [hbe]
    exact main L [] hβ (by simp)

/-- Witness for C7 on a one-entry accumulator and a repeated emission. -/
theorem C7_accumulator_witness :
    ((_flag_account ⟨[], []⟩ [⟨"A", ["shell_pass_through"], 20, 0, some "RING_01"⟩]
        ⟨"A", "shell_pass_through", 20, some "RING_02"⟩).map
        (fun e => (e.account_id, e.detected_patterns, e.raw_pattern_score)) =
      ([⟨"A", ["shell_pass_through"], 20, 0, some "RING_01"⟩] : List AccountFlag).map
        (fun e => (e.account_id, e.detected_patterns, e.raw_pattern_score))) ∧
    ((_flag_account ⟨[], []⟩ [⟨"A", ["shell_pass_through"], 20, 0, some "RING_01"⟩]
        ⟨"A", "shell_pass_through", 20, some "RING_02"⟩).getD 0 default).ring_id =
      some "RING_01" ∧
    ∀ e ∈ ([⟨"A", "shell_pass_through", 20, some "RING_02"⟩,
            ⟨"A", "shell_pass_through", 20, some "RING_02"⟩] : List Emission).foldl
        (_flag_account ⟨[], []⟩) [],
      e.detected_patterns.Nodup ∧
      e.raw_pattern_score = (e.detected_patterns.map (fun _ => (20 : Int))).sum :=
  ⟨(C7_accumulator_idempotent_ring_first ⟨[], []⟩).1 _ _ (by decide) (by decide),
   (C7_accumulator_idempotent_ring_first ⟨[], []⟩).2.1 _ _ 0 "RING_01" (by decide) (by decide),
   (C7_accumulator_idempotent_ring_first ⟨[], []⟩).2.2 _ (fun _ => (20 : Int)) (by decide)⟩

lemma velocity_cases (g : TxGraph) (a : String) :
    _calculate_velocity_score g a = 0 ∨ _calculate_velocity_score g a = 10 := by
  unfold _calculate_velocity_score
  split
  · split
    · exact Or.inl rfl
    · split
      · exact Or.inr rfl
      · exact Or.inl rfl
  · exact Or.inl rfl

lemma allEmissions_bump_nonneg (g : TxGraph) : ∀ em ∈ allEmissions g, 0 ≤ em.score_bump := by
  intro em hm
  rcases emission_tag_cases g em hm with
    ⟨c, -, node, -, j, rfl⟩ | ⟨m, -, -, rfl⟩ | ⟨m, -, -, rfl⟩ | ⟨m, -, -, rfl⟩
  · exact (by norm_num : (0 : Int) ≤ 40)
  · exact (by norm_num : (0 : Int) ≤ 30)
  · exact (by norm_num : (0 : Int) ≤ 30)
  · exact (by norm_num : (0 : Int) ≤ 20)

lemma foldl_nonneg (g : TxGraph) :
    ∀ (L : List Emission), (∀ em ∈ L, 0 ≤ em.score_bump) →
    ∀ (S : List AccountFlag),
      (∀ e ∈ S, 0 ≤ e.raw_pattern_score ∧ 0 ≤ e.velocity_score) →
      ∀ e ∈ L.foldl (_flag_account g) S, 0 ≤ e.raw_pattern_score ∧ 0 ≤ e.velocity_score := by
  intro L
  induction L with
  | nil =>
    intro _ S hS e he
    exact hS e he
  | cons em L ih =>
    intro hb S hS e he
    simp only [List.foldl_cons] at he
    refine ih (fun x hx => hb x (List.mem_cons_of_mem _ hx)) _ ?_ e he
    intro e1 he1
    have hbe : 0 ≤ em.score_bump := hb em (List.mem_cons_self _ _)
    rw [flag_account_eq] at he1
    split at he1
    case isTrue hex =>
      rcases List.mem_map.mp he1 with ⟨e0, he0, rfl⟩
      by_cases hea : e0.account_id = em.account_id
      · rw [if_pos hea]
        rcases hS e0 he0 with ⟨h1, h2⟩
        rw [updateExisting_raw, updateExisting_velocity]
        refine ⟨?_, h2⟩
        split
        · exact h1
        · omega
      · rw [if_neg hea]
        exact hS e0 he0
    case isFalse hex =>
      rcases List.mem_append.mp he1 with he1 | he1
      · exact hS _ he1
      · rcases List.mem_singleton.mp he1 with rfl
        refine ⟨hbe, ?_⟩
        rcases velocity_cases g em.account_id with h | h
        · rw [h]
        · rw [h]
          norm_num

lemma accum_nonneg (g : TxGraph) :
    ∀ e ∈ runAccum g, 0 ≤ e.raw_pattern_score ∧ 0 ≤ e.velocity_score :=
  foldl_nonneg g (allEmissions g) (allEmissions_bump_nonneg g) [] (by simp)

/-- C8: each reported `suspicion_score` equals
`min(total_raw, 100)` where `total_raw = raw_pattern_score + velocity_score`,
multiplied by `1.2` exactly when more than one pattern was detected; hence
every score lies in `[0, 100]`. -/
theorem C8_scoring (g : TxGraph) (s : SuspiciousAccount)
    (hs : s ∈ (analysisReport g).suspicious_accounts) :
    (∃ e ∈ runAccum g, s.account_id = e.account_id ∧
      s.detected_patterns = e.detected_patterns ∧
      s.suspicion_score =
        min (if 1 < e.detected_patterns.length then
              ((e.raw_pattern_score : ℚ) + (e.velocity_score : ℚ)) * (1.2 : ℚ)
             else (e.raw_pattern_score : ℚ) + (e.velocity_score : ℚ)) (100 : ℚ)) ∧
    0 ≤ s.suspicion_score ∧ s.suspicion_score ≤ 100 := by
  rw [(report_parts g).1] at hs
  rcases List.mem_map.mp hs with ⟨e, he, rfl⟩
  have hnn := accum_nonneg g e he
  have hfin : (finalizeAccount e).suspicion_score =
      min (if 1 < e.detected_patterns.length then
            ((e.raw_pattern_score : ℚ) + (e.velocity_score : ℚ)) * (1.2 : ℚ)
           else (e.raw_pattern_score : ℚ) + (e.velocity_score : ℚ)) (100 : ℚ) := rfl
  have h1 : (0 : ℚ) ≤ (e.raw_pattern_score : ℚ) + (e.velocity_score : ℚ) :=
    add_nonneg (by exact_mod_cast hnn.1) (by exact_mod_cast hnn.2)
  have htot : (0 : ℚ) ≤ (if 1 < e.detected_patterns.length then
      ((e.raw_pattern_score : ℚ) + (e.velocity_score : ℚ)) * (1.2 : ℚ)
     else (e.raw_pattern_score : ℚ) + (e.velocity_score : ℚ)) := by
    split
    · exact mul_nonneg h1 (by norm_num)
    · exact h1
  refine ⟨⟨e, he, rfl, rfl, hfin⟩, ?_, ?_⟩
  · rw [hfin]
    exact le_min htot (by norm_num)
  · rw [hfin]
    exact min_le_right _ _

/-- Witness for C8: the first flagged account of the 3-cycle scenario has a
score inside `[0, 100]`. -/
theorem C8_scoring_witness :
    0 ≤ ((analysisReport (from_pandas_edgelist rowsCycle3)).suspicious_accounts.getD 0
      default).suspicion_score ∧
    ((analysisReport (from_pandas_edgelist rowsCycle3)).suspicious_accounts.getD 0
      default).suspicion_score ≤ 100 := by
  have h0 : 0 < (analysisReport (from_pandas_edgelist rowsCycle3)).suspicious_accounts.length := by
    decide
  have hmem : (analysisReport (from_pandas_edgelist rowsCycle3)).suspicious_accounts.getD 0
      default ∈ (analysisReport (from_pandas_edgelist rowsCycle3)).suspicious_accounts := by
    rw [List.getD_eq_getElem _ _ h0]
    exact List.getElem_mem h0
  exact (C8_scoring _ _ hmem).2

/-- Counterexample for C2: on a single self-loop transaction the account `A`
has exactly one distinct incident edge, so the claim as stated demands
velocity `0`, but the code counts the self-loop's timestamp once as out-edge
and once as in-edge and returns `10`. -/
theorem C2_velocity_counterexample :
    _calculate_velocity_score (from_pandas_edgelist rowsSelfLoop) "A" = 10 ∧
    claim_velocity_score (from_pandas_edgelist rowsSelfLoop) "A" = 0 ∧
    (incidentEdges (from_pandas_edgelist rowsSelfLoop) "A").length = 1 := by
  decide

lemma length_sortedIncident (g : TxGraph) (a : String) :
    (sortedIncidentTimestamps g a).length = (incidentTimestamps g a).length := by
  unfold sortedIncidentTimestamps
  exact List.length_insertionSort _ _

lemma code10_iff (g : TxGraph) (a : String) :
    _calculate_velocity_score g a = 10 ↔
      a ∈ g.nodes ∧ ∃ i, i + 1 < (sortedIncidentTimestamps g a).length ∧
        (sortedIncidentTimestamps g a).getD (i + 1) 0 -
          (sortedIncidentTimestamps g a).getD i 0 < 3600 := by
  unfold _calculate_velocity_score
  split
  case isTrue h =>
    split
    case isTrue h2 =>
      constructor
      · intro h10
        exact absurd h10 (by norm_num)
      · rintro ⟨-, i, hi, -⟩
        rw [length_sortedIncident] at hi
        omega
    case isFalse h2 =>
      split
      case isTrue hany =>
        rw [List.any_eq_true] at hany
        rcases hany with ⟨i, hir, hd⟩
        rw [List.mem_range] at hir
        rw [decide_eq_true_iff] at hd
        exact ⟨fun _ => ⟨h, i, by omega, hd⟩, fun _ => rfl⟩
      case isFalse hany =>
        constructor
        · intro h10
          exact absurd h10 (by norm_num)
        · rintro ⟨-, i, hi, hd⟩
          exact absurd (List.any_eq_true.mpr
            ⟨i, List.mem_range.mpr (by omega), decide_eq_true hd⟩) hany
  case isFalse h =>
    constructor
    · intro h10
      exact absurd h10 (by norm_num)
    · rintro ⟨hmem, -⟩
      exact absurd hmem h

lemma sorted_adjacent_iff_pair (S : List Int) (c : Int) (hc : 0 < c) :
    (∃ i, i + 1 < S.length ∧ S.getD (i + 1) 0 - S.getD i 0 < c) ↔
    (∃ i j, i < j ∧ j < S.length ∧ S.getD j 0 - S.getD i 0 < c) := by
  constructor
  · rintro ⟨i, hi, hd⟩
    exact ⟨i, i + 1, by omega, hi, hd⟩
  · rintro ⟨i, j, hij, hj, hd⟩
    have main : ∀ d i j, j - i = d → i < j → j < S.length → S.getD j 0 - S.getD i 0 < c →
        ∃ i2, i2 + 1 < S.length ∧ S.getD (i2 + 1) 0 - S.getD i2 0 < c := by
      intro d
      induction d using Nat.strong_induction_on with
      | _ d ih =>
        intro i j hdj hij hj hlt
        by_cases hadj : j = i + 1
        · subst hadj
          exact ⟨i, hj, hlt⟩
        · by_cases hfirst : S.getD (i + 1) 0 - S.getD i 0 < c
          · exact ⟨i, by omega, hfirst⟩
          · have hlt2 : S.getD j 0 - S.getD (i + 1) 0 < c := by omega
            exact ih (j - (i + 1)) (by omega) (i + 1) j rfl (by omega) hj hlt2
    exact main (j - i) i j rfl hij hj hd

lemma sorted_pair_abs (S : List Int) (hS : S.Sorted (· ≤ ·)) (c : Int) :
    (∃ i j, i < j ∧ j < S.length ∧ S.getD j 0 - S.getD i 0 < c) ↔
    (∃ i j, i < S.length ∧ j < S.length ∧ i ≠ j ∧ |S.getD i 0 - S.getD j 0| < c) := by
  have hmono : ∀ i j, i < j → j < S.length → S.getD i 0 ≤ S.getD j 0 := by
    intro i j hij hj
    rw [List.getD_eq_getElem _ _ (by omega), List.getD_eq_getElem _ _ hj]
    exact List.pairwise_iff_getElem.mp hS i j (by omega) hj hij
  constructor
  · rintro ⟨i, j, hij, hj, hd⟩
    have hle := hmono i j hij hj
    refine ⟨i, j, by omega, hj, by omega, ?_⟩
    rw [abs_sub_comm, abs_of_nonneg (by omega)]
    exact hd
  · rintro ⟨i, j, hi, hj, hne, habs⟩
    rcases Nat.lt_or_ge i j with h | h
    · have hle := hmono i j h hj
      refine ⟨i, j, h, hj, ?_⟩
      rw [abs_sub_comm, abs_of_nonneg (by omega)] at habs
      exact habs
    · have hji : j < i := by omega
      have hle := hmono j i hji hi
      refine ⟨j, i, hji, hi, ?_⟩
      rw [abs_of_nonneg (by omega)] at habs
      exact habs

lemma pair_iff_not_pairwise (l : List Int) (c : Int) :
    (∃ i j, i < l.length ∧ j < l.length ∧ i ≠ j ∧ |l.getD i 0 - l.getD j 0| < c) ↔
    ¬ l.Pairwise (fun x y => ¬ |x - y| < c) := by
  rw [List.pairwise_iff_getElem]
  push_neg
  constructor
  · rintro ⟨i, j, hi, hj, hne, hlt⟩
    rw [List.getD_eq_getElem _ _ hi, List.getD_eq_getElem _ _ hj] at hlt
    rcases Nat.lt_or_ge i j with h | h
    · exact ⟨i, j, hi, hj, h, hlt⟩
    · exact ⟨j, i, hj, hi, by omega, by rw [abs_sub_comm] at hlt; exact hlt⟩
  · rintro ⟨i, j, hi, hj, hij, hlt⟩
    refine ⟨i, j, hi, hj, by omega, ?_⟩
    rw [List.getD_eq_getElem _ _ hi, List.getD_eq_getElem _ _ hj]
    exact hlt

/-- C2 (amended): the velocity score is `10` iff the account is a node and the
gathered incident timestamp list — out-edge timestamps followed by in-edge
timestamps, a self-loop contributing twice — has two entries at distinct
positions less than 3600 seconds apart; otherwise the score is `0`. -/
theorem C2_velocity_amended (g : TxGraph) (a : String) :
    (_calculate_velocity_score g a = 10 ↔
      a ∈ g.nodes ∧
      ∃ i j, i < (incidentTimestamps g a).length ∧ j < (incidentTimestamps g a).length ∧
        i ≠ j ∧
        |(incidentTimestamps g a).getD i 0 - (incidentTimestamps g a).getD j 0| < 3600) ∧
    (_calculate_velocity_score g a = 0 ∨ _calculate_velocity_score g a = 10) := by
  constructor
  · rw [code10_iff]
    have hsymm : Symmetric (fun x y : Int => ¬ |x - y| < 3600) := by
      intro x y h
      rw [abs_sub_comm]
      exact h
    have hperm : List.Perm (sortedIncidentTimestamps g a) (incidentTimestamps g a) :=
      List.perm_insertionSort _ _
    have hsort : List.Sorted (· ≤ ·) (sortedIncidentTimestamps g a) :=
      List.sorted_insertionSort _ _
    rw [sorted_adjacent_iff_pair _ 3600 (by norm_num), sorted_pair_abs _ hsort,
      pair_iff_not_pairwise, hperm.pairwise_iff (fun h => hsymm h), ← pair_iff_not_pairwise]
  · exact velocity_cases g a

/-- Witness for C2 (amended) at a graph with two close transactions. -/
theorem C2_velocity_amended_witness :
    _calculate_velocity_score (from_pandas_edgelist rowsSelfLoop) "A" = 10 :=
  ((C2_velocity_amended (from_pandas_edgelist rowsSelfLoop) "A").1).mpr
    ⟨by decide, 0, 1, by decide, by decide, by decide, by decide⟩

/-! Re-running the detectors on an already-populated accumulator. -/

lemma updateExisting_eq_self (item : AccountFlag) (em : Emission)
    (hp : em.pattern ∈ item.detected_patterns)
    (hr : em.ring_id.isSome = true → item.ring_id.isSome = true) :
    updateExisting item em = item := by
  unfold updateExisting
  dsimp only
  rw [if_pos hp]
  split
  case isTrue hcond =>
    rcases hcond with ⟨hsome, hnone⟩
    have := hr hsome
    rw [hnone] at this
    simp at this
  case isFalse hcond => rfl

lemma flag_account_keeps_account_id (em' : Emission) (e : AccountFlag) :
    (if e.account_id = em'.account_id then updateExisting e em' else e).account_id =
      e.account_id := by
  split
  · exact updateExisting_account_id e em'
  · rfl

lemma flag_of_absorbs (g : TxGraph) (S : List AccountFlag) (em : Emission)
    (h : AbsorbsEm S em) : _flag_account g S em = S := by
  rcases h with ⟨hex, hall⟩
  rw [flag_account_eq, if_pos hex]
  have hid : ∀ e ∈ S, (if e.account_id = em.account_id then updateExisting e em else e) = e := by
    intro e he
    by_cases hea : e.account_id = em.account_id
    · rw [if_pos hea]
      rcases hall e he hea with ⟨hp, hr⟩
      exact updateExisting_eq_self e em hp hr
    · rw [if_neg hea]
  calc S.map (fun e => if e.account_id = em.account_id then updateExisting e em else e)
      = S.map id := List.map_congr_left hid
    _ = S := List.map_id S

lemma absorbs_mono (g : TxGraph) (S : List AccountFlag) (em em' : Emission)
    (h : AbsorbsEm S em) : AbsorbsEm (_flag_account g S em') em := by
  rcases h with ⟨⟨e0, he0, he0a⟩, hall⟩
  rw [flag_account_eq]
  split
  case isTrue hex =>
    constructor
    · exact ⟨_, List.mem_map.mpr ⟨e0, he0, rfl⟩,
        (flag_account_keeps_account_id em' e0).trans he0a⟩
    · rintro e' he' hea
      rcases List.mem_map.mp he' with ⟨e1, he1, rfl⟩
      rw [flag_account_keeps_account_id] at hea
      rcases hall e1 he1 hea with ⟨hp, hrs⟩
      by_cases h1 : e1.account_id = em'.account_id
      · rw [if_pos h1]
        constructor
        · rw [updateExisting_patterns]
          split
          · exact hp
          · exact List.mem_append.mpr (Or.inl hp)
        · intro hsome
          rw [updateExisting_ring]
          split
          · rename_i hcond
            exact hcond.1
          · exact hrs hsome
      · rw [if_neg h1]
        exact ⟨hp, hrs⟩
  case isFalse hex =>
    constructor
    · exact ⟨e0, List.mem_append.mpr (Or.inl he0), he0a⟩
    · rintro e' he' hea
      rcases List.mem_append.mp he' with he' | he'
      · exact hall e' he' hea
      · rcases List.mem_singleton.mp he' with rfl
        exact absurd ⟨e0, he0, he0a.trans (show em'.account_id = em.account_id from hea).symm⟩ hex

lemma flag_absorbs_self (g : TxGraph) (S : List AccountFlag) (em : Emission) :
    AbsorbsEm (_flag_account g S em) em := by
  rw [flag_account_eq]
  split
  case isTrue hex =>
    rcases hex with ⟨e0, he0, he0a⟩
    constructor
    · exact ⟨_, List.mem_map.mpr ⟨e0, he0, rfl⟩,
        (flag_account_keeps_account_id em e0).trans he0a⟩
    · rintro e' he' hea
      rcases List.mem_map.mp he' with ⟨e1, he1, rfl⟩
      rw [flag_account_keeps_account_id] at hea
      rw [if_pos hea]
      constructor
      · rw [updateExisting_patterns]
        split
        case isTrue hp => exact hp
        case isFalse hp => exact List.mem_append.mpr (Or.inr (List.mem_singleton_self _))
      · intro hsome
        rw [updateExisting_ring]
        split
        case isTrue hcond => exact hsome
        case isFalse hcond =>
          by_cases hn : e1.ring_id = none
          · exact absurd ⟨hsome, hn⟩ hcond
          · rw [Option.isSome_iff_ne_none]
            exact hn
  case isFalse hex =>
    constructor
    · exact ⟨_, List.mem_append.mpr (Or.inr (List.mem_singleton_self _)), rfl⟩
    · rintro e' he' hea
      rcases List.mem_append.mp he' with he' | he'
      · exact absurd ⟨e', he', hea⟩ hex
      · rcases List.mem_singleton.mp he' with rfl
        exact ⟨List.mem_singleton_self _, fun hs => hs⟩

lemma absorbs_foldl (g : TxGraph) :
    ∀ (L : List Emission) (S : List AccountFlag) (em : Emission),
      AbsorbsEm S em → AbsorbsEm (L.foldl (_flag_account g) S) em := by
  intro L
  induction L with
  | nil => intro S em h; exact h
  | cons x L ih =>
    intro S em h
    simp only [List.foldl_cons]
    exact ih _ em (absorbs_mono g S em x h)

lemma foldl_absorbs_all (g : TxGraph) :
    ∀ (L : List Emission) (S : List AccountFlag), ∀ em ∈ L,
      AbsorbsEm (L.foldl (_flag_account g) S) em := by
  intro L
  induction L with
  | nil => intro S em hm; cases hm
  | cons em0 L ih =>
    intro S em hm
    simp only [List.foldl_cons]
    rcases List.mem_cons.mp hm with rfl | hm
    · exact absorbs_foldl g L _ em (flag_absorbs_self g S em)
    · exact ih _ em hm

lemma foldl_fixed (g : TxGraph) :
    ∀ (L : List Emission) (S : List AccountFlag), (∀ em ∈ L, AbsorbsEm S em) →
      L.foldl (_flag_account g) S = S := by
  intro L
  induction L with
  | nil => intro S _; rfl
  | cons em L ih =>
    intro S h
    simp only [List.foldl_cons]
    rw [flag_of_absorbs g S em (h em (List.mem_cons_self _ _))]
    exact ih S (fun x hx => h x (List.mem_cons_of_mem _ hx))

lemma accum_idem (g : TxGraph) :
    (allEmissions g).foldl (_flag_account g) (runAccum g) = runAccum g :=
  foldl_fixed g _ _ (fun em hm => foldl_absorbs_all g (allEmissions g) [] em hm)

lemma run_analysis_parts (e : Engine) :
    (run_analysis e).1 =
      ⟨e.G, (allEmissions e.G).foldl (_flag_account e.G) e.suspicious_accounts,
        e.fraud_rings ++ fraudRingsOf e.G⟩ ∧
    (run_analysis e).2.suspicious_accounts =
      ((allEmissions e.G).foldl (_flag_account e.G) e.suspicious_accounts).map finalizeAccount ∧
    (run_analysis e).2.fraud_rings = e.fraud_rings ++ fraudRingsOf e.G ∧
    (run_analysis e).2.summary =
      ⟨e.G.nodes.length,
       (((allEmissions e.G).foldl (_flag_account e.G) e.suspicious_accounts).map
         finalizeAccount).length,
       (e.fraud_rings ++ fraudRingsOf e.G).length⟩ := by
  have h := engine_accum e
  unfold run_analysis
  rw [h]
  exact ⟨rfl, rfl, rfl, rfl⟩

/-- C10: a second `run_analysis` on the same engine instance does not reset
accumulator state: the fraud-ring list is appended to again with the ring
counter restarting at 01, so `fraud_rings` doubles (every `ring_id`'s
multiplicity doubles) and `fraud_rings_detected` doubles, while
`suspicious_accounts` is unchanged because repeated tags are deduplicated. -/
theorem C10_second_run_appends_rings (rows : List Row) :
    (run_analysis (run_analysis (GraphEngine rows)).1).2.suspicious_accounts =
      (run_analysis (GraphEngine rows)).2.suspicious_accounts ∧
    (run_analysis (run_analysis (GraphEngine rows)).1).2.fraud_rings =
      (run_analysis (GraphEngine rows)).2.fraud_rings ++
        (run_analysis (GraphEngine rows)).2.fraud_rings ∧
    (run_analysis (run_analysis (GraphEngine rows)).1).2.summary.fraud_rings_detected =
      2 * (run_analysis (GraphEngine rows)).2.summary.fraud_rings_detected ∧
    (∀ rid : String,
      ((run_analysis (run_analysis (GraphEngine rows)).1).2.fraud_rings.map
        (fun fr => fr.ring_id)).count rid =
      2 * (((run_analysis (GraphEngine rows)).2.fraud_rings.map
        (fun fr => fr.ring_id)).count rid)) ∧
    (run_analysis (run_analysis (GraphEngine rows)).1).2.summary.suspicious_accounts_flagged =
      (run_analysis (GraphEngine rows)).2.summary.suspicious_accounts_flagged := by
  rw [show GraphEngine rows = ⟨from_pandas_edgelist rows, [], []⟩ from rfl]
  obtain ⟨hA1, hS1, hF1, hSum1⟩ :=
    run_analysis_parts ⟨from_pandas_edgelist rows, [], []⟩
  dsimp only at hA1 hS1 hF1 hSum1
  simp only [List.nil_append] at hA1 hS1 hF1 hSum1
  rw [hA1]
  obtain ⟨hA2, hS2, hF2, hSum2⟩ := run_analysis_parts
    ⟨from_pandas_edgelist rows,
     (allEmissions (from_pandas_edgelist rows)).foldl
       (_flag_account (from_pandas_edgelist rows)) [],
     fraudRingsOf (from_pandas_edgelist rows)⟩
  dsimp only at hS2 hF2 hSum2
  have hid := accum_idem (from_pandas_edgelist rows)
  unfold runAccum at hid
  rw [hid] at hS2 hSum2
  refine ⟨?_, ?_, ?_, ?_, ?_⟩
  · rw [hS2, hS1]
  · rw [hF2, hF1]
  · rw [hSum2, hSum1]
    dsimp only
    rw [List.length_append]
    omega
  · intro rid
    rw [hF2, hF1]
    rw [List.map_append, List.count_append]
    omega
  · rw [hSum2, hSum1]

/-- Witness for C10 at the 3-cycle input: the ring count doubles while the
suspicious-account list is unchanged. -/
theorem C10_second_run_appends_rings_witness :
    (run_analysis (run_analysis (GraphEngine rowsCycle3)).1).2.suspicious_accounts =
      (run_analysis (GraphEngine rowsCycle3)).2.suspicious_accounts ∧
    (run_analysis (run_analysis (GraphEngine rowsCycle3)).1).2.summary.fraud_rings_detected =
      2 * (run_analysis (GraphEngine rowsCycle3)).2.summary.fraud_rings_detected :=
  ⟨(C10_second_run_appends_rings rowsCycle3).1,
   (C10_second_run_appends_rings rowsCycle3).2.2.1⟩
